import Mathlib

/-!
Verification of the lemoncrypt reversible-encryption pipeline against its
natural-language specification.  The Go sources are shallowly embedded:
byte streams become `List Char`, fallible operations return `Except`/`Option`,
and the `io.Reader` interface is modelled by the unread content of the
reference stream together with a schedule of chunk sizes that successive
`Read` calls deliver.
-/

set_option autoImplicit false

deriving instance DecidableEq for Except

/-! ## Verifier (verifier.go)

The Go `Verifier` holds an `io.Reader` (`target`), an `expectedLength` and a
`byteCounter`.  We model the reader by its unread `content` plus `chunks`, the
sizes its next `Read` calls return (the test suite's `shortReader` returns one
byte per call; `bytes.Buffer` fills the whole destination buffer).  Once the
schedule is exhausted the reader behaves like `bytes.Buffer`: each `Read`
returns `min (len rBuf) (len content)` bytes, and `(0, io.EOF)` when the
content is exhausted. -/

structure Verifier where
  content : List Char
  chunks : List Nat
  expectedLength : Nat
  byteCounter : Nat
deriving Repr, DecidableEq

/-- Result of `Verifier.Write`: the returned `(int, error)` pair together with
the verifier state afterwards, or `panicked` when the Go code evaluates a
slice expression outside the bounds of the slice (`wBuf[0:l]` with
`l > len(wBuf)`). -/
inductive VResult where
  | ok (n : Nat) (v : Verifier)
  | fail (n : Nat) (msg : String) (v : Verifier)
  | panicked
deriving Repr, DecidableEq

/-- Epilogue of the `Verifier.Write` loop once the reader's chunk schedule is
exhausted: every further `Read` is deterministic, returning
`l = min askLen (len content)` bytes.  `askLen` is `len(rBuf)`, the length of
the original write, so `askLen ≥ len wBuf` holds at every call (the remaining
`wBuf` only shrinks); under that invariant the loop runs at most two more
iterations, which this non-recursive definition spells out:
if the matched segment ends exactly at `wBuf`'s end the write succeeds,
otherwise the whole content was consumed and the next `Read` yields
`(0, io.EOF)` which `Write` returns as `(0, err)`. -/
def vLoopNoChunks (askLen expected : Nat) (wBuf content : List Char)
    (counter : Nat) : VResult :=
  if wBuf.isEmpty then .ok askLen ⟨content, [], expected, counter⟩
  else if content.isEmpty then .fail 0 "EOF" ⟨content, [], expected, counter⟩
  else if wBuf.length < min askLen content.length then .panicked
  else if wBuf.take (min askLen content.length) ≠ content.take (min askLen content.length) then
    .fail (min askLen content.length) "bytes mismatch"
      ⟨content.drop (min askLen content.length), [], expected, counter⟩
  else if min askLen content.length = wBuf.length then
    .ok askLen ⟨content.drop (min askLen content.length), [], expected,
      counter + min askLen content.length⟩
  else .fail 0 "EOF" ⟨content.drop (min askLen content.length), [], expected,
    counter + min askLen content.length⟩

/-- The `for toRead > 0` loop of `Verifier.Write`.  Each `Read` pops one entry
of the chunk schedule and returns `l = min chunk (min askLen (len content))`
bytes; the Go code then evaluates `wBuf[0:l]` (out of bounds when
`l > len wBuf`, modelled by `panicked`), compares it with the bytes read, and
on success advances `byteCounter` and slices `wBuf = wBuf[l:]`. -/
def vLoop (askLen expected : Nat) :
    List Nat → List Char → List Char → Nat → VResult
  | [], wBuf, content, counter => vLoopNoChunks askLen expected wBuf content counter
  | c :: cs, wBuf, content, counter =>
    if wBuf.isEmpty then .ok askLen ⟨content, c :: cs, expected, counter⟩
    else if content.isEmpty then .fail 0 "EOF" ⟨content, c :: cs, expected, counter⟩
    else if wBuf.length < min c (min askLen content.length) then .panicked
    else if wBuf.take (min c (min askLen content.length)) ≠
        content.take (min c (min askLen content.length)) then
      .fail (min c (min askLen content.length)) "bytes mismatch"
        ⟨content.drop (min c (min askLen content.length)), cs, expected, counter⟩
    else vLoop askLen expected cs
      (wBuf.drop (min c (min askLen content.length)))
      (content.drop (min c (min askLen content.length)))
      (counter + min c (min askLen content.length))

/-- `Verifier.Write(wBuf)`: `totalLen = len wBuf` is both the size of the
read buffer `rBuf` and the value returned on success. -/
def verifierWrite (v : Verifier) (wBuf : List Char) : VResult :=
  vLoop wBuf.length v.expectedLength v.chunks wBuf v.content v.byteCounter

/-- `Verifier.Equal`: reads one probe byte; the probe returns `(0, io.EOF)`
exactly when the reference content is exhausted (any remaining byte makes the
probe return a nonzero count or a non-EOF error, and `Equal` returns false in
both cases), then compares `byteCounter` with `expectedLength`. -/
def verifierEqual (v : Verifier) : Bool :=
  v.content.isEmpty && v.byteCounter == v.expectedLength

/-- A sequence of `Write` calls; `none` when some write did not succeed. -/
def verifierRun (v : Verifier) : List (List Char) → Option Verifier
  | [] => some v
  | w :: ws =>
    match verifierWrite v w with
    | .ok _ v' => verifierRun v' ws
    | _ => none

/-! ## expandTilde (helpers.go)

`expandTilde` immediately evaluates `path[0:2]`; in Go this string-slice
expression panics when `len(path) < 2`, which we model with `none`.  The home
directory lookup (`user.Current()`) is abstracted by an optional home path:
on lookup failure the Go code returns the path unchanged. -/

def expandTilde (home : Option (List Char)) (path : List Char) : Option (List Char) :=
  if path.length < 2 then none
  else if path.take 2 ≠ ['~', '/'] then some path
  else
    match home with
    | none => some path
    | some dir => some (dir ++ path.drop 1)

/-- Key fields of the `EncryptAction` configuration relevant to
`validateConfig`. -/
structure ActionConfig where
  folders : List (String × String)
  encryptionKeyPath : List Char
  signingKeyPath : List Char
  plainHeaders : List String
deriving Repr, DecidableEq

/-- Outcome of `EncryptAction.validateConfig`: an ordinary error return, a
runtime panic, or the updated configuration. -/
inductive ConfigResult where
  | err (msg : String)
  | panicked
  | ok (cfg : ActionConfig)
deriving Repr, DecidableEq

/-- `EncryptAction.validateConfig`: rejects an empty folder map and an empty
encryption key path, defaults the plain-header keep-list, then tilde-expands
both key paths (the signing key path is not checked for emptiness first). -/
def validateConfig (home : Option (List Char)) (cfg : ActionConfig) : ConfigResult :=
  if cfg.folders.length < 1 then .err "no folders configured (mailbox.folders)"
  else if cfg.encryptionKeyPath = [] then .err "missing encryption key path"
  else
    let hdrs := if cfg.plainHeaders.length = 0 then
        ["From", "To", "Cc", "Bcc", "Date", "Subject"] else cfg.plainHeaders
    match expandTilde home cfg.encryptionKeyPath with
    | none => .panicked
    | some ep =>
      match expandTilde home cfg.signingKeyPath with
      | none => .panicked
      | some sp =>
        .ok { folders := cfg.folders, encryptionKeyPath := ep,
              signingKeyPath := sp, plainHeaders := hdrs }

/-! ## HeaderBuffer (headerBuffer.go)

`checkForCompleteHeader` scans the accumulated bytes for `\n\n`, treating `\r`
as invisible (a `\r` does not update `prev`); on detection the accumulator is
truncated to `idx+1` bytes.  `storeHeaderBlock` then re-emits the block line
by line through a `bufio.Scanner` (lines split at `\n`, one trailing `\r`
stripped per line, no empty final token after a trailing `\n`), dropping every
line that is nonempty, contains no `:` and does not start with SP or HTAB. -/

def splitLine : List Char → List Char × Option (List Char)
  | [] => ([], none)
  | c :: cs =>
    if c = '\n' then ([], some cs)
    else
      let r := splitLine cs
      (c :: r.1, r.2)

/-- The `dropCR` step of `bufio.ScanLines`: strip one trailing `\r`. -/
def dropCR (l : List Char) : List Char :=
  if l.getLast? = some '\r' then l.dropLast else l

/-- `bufio.Scanner` line splitting; the fuel decreases on every recursive call
and the top-level wrapper supplies `length + 1`, which is always sufficient
because each produced line consumes at least its `\n` terminator. -/
def scanLinesAux : Nat → List Char → List (List Char)
  | 0, _ => []
  | _, [] => []
  | fuel + 1, s =>
    match splitLine s with
    | (line, none) => [dropCR line]
    | (line, some rest) => dropCR line :: scanLinesAux fuel rest

def scanLines (s : List Char) : List (List Char) :=
  scanLinesAux (s.length + 1) s

/-- The dropped-line test of `storeHeaderBlock`:
`len(line) > 0 && !strings.Contains(line, ":") && line[0] != ' ' && line[0] != '\t'`. -/
def isNoise (line : List Char) : Bool :=
  match line with
  | [] => false
  | c :: _ => !line.contains ':' && c ≠ ' ' && c ≠ '\t'

/-- The emit loop of `storeHeaderBlock`: kept lines are written to the buffer
followed by a single `\n`. -/
def storeLoop : List (List Char) → List Char → List Char
  | [], buf => buf
  | line :: rest, buf =>
    if isNoise line then storeLoop rest buf
    else storeLoop rest (buf ++ line ++ ['\n'])

def storeHeaderBlock (headerBytes : List Char) : List Char :=
  storeLoop (scanLines headerBytes) []

/-- `checkForCompleteHeader`'s scan: `prev` starts as the zero byte, `\r`
bytes do not update it, and the scan stops at the first position whose byte is
`\n` while `prev` is `\n`. -/
def findHeaderEnd : List Char → Char → Nat → Option Nat
  | [], _, _ => none
  | c :: rest, prev, idx =>
    if prev = '\n' ∧ c = '\n' then some idx
    else findHeaderEnd rest (if c ≠ '\r' then c else prev) (idx + 1)

/-- End-to-end `HeaderBuffer` behaviour on a fully written message: the bytes
readable after completion, or `none` while no complete header block exists. -/
def headerBufferEmit (input : List Char) : Option (List Char) :=
  match findHeaderEnd input (Char.ofNat 0) 0 with
  | none => none
  | some idx => some (storeHeaderBlock (input.take (idx + 1)))

/-! ## PGPEncryptor plaintext headers (pgpEncryptor.go)

`writePlainHeaders` parses the captured header block, rejects an already
encrypted `Content-Type`, then writes — in source order — the rewritten
Message-Id (`writeMessageID`), the kept plaintext headers
(`writeKeptHeaders`), and the `X-Lemoncrypt` marker
(`writeLemoncryptHeader`); `writeMIMEStructure` appends the fixed
multipart/encrypted framing.  The parsed header map is taken as input
(`textproto.ReadMIMEHeader` canonicalises keys; callers use the canonical
spellings), and the per-message random boundary and the armored payload are
parameters, so that envelope assembly is a pure function. -/

def msgIDPrefixStr : List Char := "lemoncrypt.".toList

/-- `textproto.MIMEHeader.Get`: first value for the key, `""` when absent. -/
def headersGet (hs : List (String × String)) (k : String) : String :=
  match hs.find? (fun p => p.1 == k) with
  | some p => p.2
  | none => ""

/-- `writeMessageID`: the Go branches are `len(msgid) > 1 && msgid[0] == '<'`,
where the then-branch is `msgid[0:1] + msgIDPrefix + msgid[1:]` and the
else-branch is `msgid += msgIDPrefix + msgid[1:]`. -/
def writeMessageID (msgid : List Char) : List Char :=
  let m :=
    if msgid = [] then msgid
    else if 1 < msgid.length ∧ msgid.head? = some '<' then
      msgid.take 1 ++ msgIDPrefixStr ++ msgid.drop 1
    else
      msgid ++ msgIDPrefixStr ++ msgid.drop 1
  "Message-Id: ".toList ++ m ++ ['\n']

/-- The loop of `writeKeptHeaders`: copies each keep-list header with a
non-empty value, in keep-list order, appending to the output buffer. -/
def writeKeptLoop (hs : List (String × String)) : List String → List Char → List Char
  | [], buf => buf
  | k :: ks, buf =>
    let v := headersGet hs k
    if v = "" then writeKeptLoop hs ks buf
    else writeKeptLoop hs ks (buf ++ (k ++ ": " ++ v ++ "\n").toList)

/-- `writeLemoncryptHeader` output (`CustomHeader + ": v0.1\n"`). -/
def lemoncryptHeaderLine : List Char := "X-Lemoncrypt: v0.1\n".toList

/-- `writePlainHeaders`: Content-Type check, then Message-Id, kept headers and
the `X-Lemoncrypt` line, written to `outBuffer` in that order. -/
def writePlainHeaders (hs : List (String × String)) (keep : List String) :
    Except String (List Char) :=
  if "multipart/encrypted".isPrefixOf (headersGet hs "Content-Type") then
    .error "already encrypted"
  else
    .ok (writeKeptLoop hs keep (writeMessageID (headersGet hs "Message-Id").toList)
      ++ lemoncryptHeaderLine)

/-- `writeMIMEStructure`'s literal output with the boundary and the armored
block inlined. -/
def writeMIMEStructure (boundary armored : String) : List Char :=
  ("MIME-Version: 1.0\nContent-Type: multipart/encrypted;\n" ++
   " protocol=\"application/pgp-encrypted\";\n boundary=\"" ++ boundary ++
   "\"\n\nOpenPGP/MIME\n--" ++ boundary ++
   "\nContent-Type: application/pgp-encrypted\n\nVersion: 1\n\n--" ++ boundary ++
   "\nContent-Type: application/octet-stream; name=\"encrypted.asc\"\n" ++
   "Content-Disposition: inline; filename=\"encrypted.asc\"\n\n" ++ armored ++
   "\n--" ++ boundary ++ "--").toList

/-- `finalizeMIME` / `GetBytes` on the already-finalized armored payload:
plaintext headers followed by the MIME structure. -/
def envelopeBytes (hs : List (String × String)) (keep : List String)
    (boundary armored : String) : Except String (List Char) :=
  match writePlainHeaders hs keep with
  | .error e => .error e
  | .ok hdrs => .ok (hdrs ++ writeMIMEStructure boundary armored)

/-! ## PGPTransformer key handling (pgpTransformer.go, pgpEncryptor.go)

Entities (`*openpgp.Entity`) are abstracted by numeric identifiers; a nil
pointer is `none`.  `NewPGPEncryptor(signingKey, encryptionKey *openpgp.Entity,
keepHeaders []string)` checks `encryptionKey == nil` and then calls
`openpgp.Encrypt(w, []*openpgp.Entity{encryptionKey}, signingKey, ...)`, so
the constructed stream's recipient list is `[encryptionKey]` and its signer is
`signingKey`.  `PGPTransformer.NewEncryptor` invokes it positionally as
`NewPGPEncryptor(t.encryptionKey, t.signingKey, t.keepHeaders)`. -/

/-- Parameters the OpenPGP stream of a `PGPEncryptor` is constructed with. -/
structure PGPEncryptorCfg where
  recipients : List Nat
  signer : Option Nat
  keepHeaders : List String
deriving Repr, DecidableEq

/-- `NewPGPEncryptor`: first parameter is the signing entity, second the
encryption target; fails when the second is nil. -/
def newPGPEncryptor (signingKey encryptionKey : Option Nat)
    (keep : List String) : Except String PGPEncryptorCfg :=
  match encryptionKey with
  | none => .error "missing encryption key"
  | some ek => .ok ⟨[ek], signingKey, keep⟩

/-- Key-related fields of `PGPTransformer`. -/
structure TransformerKeys where
  encryptionKey : Option Nat
  signingKey : Option Nat
  keepHeaders : List String
deriving Repr, DecidableEq

/-- `PGPTransformer.NewEncryptor`: the positional call
`NewPGPEncryptor(t.encryptionKey, t.signingKey, t.keepHeaders)` — the
transformer's encryption key lands in the `signingKey` parameter and the
signing key in the `encryptionKey` parameter. -/
def transformerNewEncryptor (t : TransformerKeys) : Except String PGPEncryptorCfg :=
  newPGPEncryptor t.encryptionKey t.signingKey t.keepHeaders

/-! ## PGPDecryptor.GetReader (pgpDecryptor.go)

`GetReader` wraps the message buffer `d.buf` in a `bufio.Reader` (buffer size
`bufSize`, 4096 in Go), parses the MIME header block through it, and — when
the message carries no `X-Lemoncrypt` header or no multipart/encrypted
Content-Type — returns `d.buf` itself as the passthrough reader.  A
`bufio.Reader` fill moves `min (bufSize - len pending) (len buf)` bytes out of
the underlying buffer, so the bytes the returned reader can still yield are
exactly those never moved into the bufio buffer.  Header folding is not
modelled (none of the evaluated messages folds headers). -/

structure BufReader where
  pending : List Char
  buf : List Char
deriving Repr, DecidableEq

/-- One `bufio.Reader` fill from the underlying `bytes.Buffer`. -/
def bfFill (bufSize : Nat) (r : BufReader) : BufReader :=
  let n := min (bufSize - r.pending.length) r.buf.length
  ⟨r.pending ++ r.buf.take n, r.buf.drop n⟩

/-- Read one `\n`-terminated line through the bufio layer, filling as needed;
`none` on EOF before the terminator or on a full buffer without a newline
(`bufio.ErrBufferFull`).  The fuel decreases on every fill and every fill
consumes at least one byte of `buf`, so `len buf + 1` suffices. -/
def bfReadLineAux (bufSize : Nat) : Nat → BufReader → Option (List Char × BufReader)
  | 0, _ => none
  | fuel + 1, r =>
    match splitLine r.pending with
    | (line, some rest) => some (dropCR line, ⟨rest, r.buf⟩)
    | (_, none) =>
      if r.buf.isEmpty then none
      else if bufSize ≤ r.pending.length then none
      else bfReadLineAux bufSize fuel (bfFill bufSize r)

def bfReadLine (bufSize : Nat) (r : BufReader) : Option (List Char × BufReader) :=
  bfReadLineAux bufSize (r.buf.length + 1) r

/-- Split a header line at its first `:`; `none` when the line has none. -/
def splitAtColon : List Char → Option (List Char × List Char)
  | [] => none
  | c :: cs =>
    if c = ':' then some ([], cs)
    else
      match splitAtColon cs with
      | none => none
      | some (k, v) => some (c :: k, v)

def trimLeadingWS : List Char → List Char
  | [] => []
  | c :: cs => if c = ' ' ∨ c = '\t' then trimLeadingWS cs else c :: cs

def parseHeaderLine (line : List Char) : Option (String × String) :=
  match splitAtColon line with
  | none => none
  | some (k, v) => some (⟨k⟩, ⟨trimLeadingWS v⟩)

/-- `textproto.ReadMIMEHeader` through the bufio layer: reads header lines up
to and including the blank terminator line, failing on EOF or a line without
a colon.  Each line consumes at least one byte, so `pending + buf + 1` fuel
suffices. -/
def readMIMEHeaderAux (bufSize : Nat) :
    Nat → BufReader → List (String × String) →
    Option (List (String × String) × BufReader)
  | 0, _, _ => none
  | fuel + 1, r, acc =>
    match bfReadLine bufSize r with
    | none => none
    | some (line, r') =>
      if line.isEmpty then some (acc, r')
      else
        match parseHeaderLine line with
        | none => none
        | some kv => readMIMEHeaderAux bufSize fuel r' (acc ++ [kv])

def readMIMEHeader (bufSize : Nat) (r : BufReader) :
    Option (List (String × String) × BufReader) :=
  readMIMEHeaderAux bufSize (r.pending.length + r.buf.length + 1) r []

/-- `PGPDecryptor.isLemoncrypt`. -/
def isLemoncryptHdr (hs : List (String × String)) : Bool :=
  headersGet hs "X-Lemoncrypt" != "" &&
    "multipart/encrypted".isPrefixOf (headersGet hs "Content-Type")

/-- `PGPDecryptor.GetReader` after the whole message `m` was written: parses
the header block through the bufio layer and, for a non-lemoncrypt message,
returns the bytes still unread in `d.buf` — the passthrough reader's entire
content.  The multipart decryption branch is outside the passthrough claim
and is represented by a distinguished error. -/
def decryptorGetReader (bufSize : Nat) (m : List Char) : Except String (List Char) :=
  match readMIMEHeader bufSize ⟨[], m⟩ with
  | none => .error "header parse failed"
  | some (hs, r') =>
    if !isLemoncryptHdr hs then .ok r'.buf
    else .error "multipart decryption branch"

/-! ## EncryptAction.encryptMail (encryptAction.go)

The per-message pipeline, with the encryptor (`NewEncryptor` + `WriteTo` +
`GetBytes`) and the decryptor (`NewDecryptor` + `WriteTo` + `GetBytes`)
abstracted as fallible byte transformations.  `origBuffer` receives a second
copy of the original bytes, so the comparison is `decBytes == M`.  The append
to the target store is recorded in `appended`; its own network error is
orthogonal to the claim and the model lets it succeed. -/

structure PipelineResult where
  appended : Option (List Char)
  err : Option String
deriving Repr, DecidableEq

def encryptMail (enc dec : List Char → Except String (List Char))
    (m : List Char) : PipelineResult :=
  match enc m with
  | .error e => ⟨none, some e⟩
  | .ok encBytes =>
    match dec encBytes with
    | .error e => ⟨none, some e⟩
    | .ok decBytes =>
      if decBytes = m then ⟨some encBytes, none⟩
      else ⟨none, some "round-trip verification failed"⟩

/-! ## Spec-side comparison definitions

These definitions follow the wording of the (amended) specification claims and
are compared against the source-derived definitions above. -/

/-- Message-Id rewriting as the amended claim words it: insert the prefix
after a leading `<`; otherwise append the prefix followed by the original id
minus its first character; keep an absent id empty. -/
def rewriteMsgIDSpec : List Char → List Char
  | [] => []
  | c :: rest =>
    if c = '<' then '<' :: (msgIDPrefixStr ++ rest)
    else (c :: rest) ++ msgIDPrefixStr ++ rest

/-- Kept-header lines as the claim words them: one line per keep-list entry
with a non-empty value, in keep-list order. -/
def keptLinesSpec (hs : List (String × String)) : List String → List Char
  | [] => []
  | k :: ks =>
    (if headersGet hs k = "" then [] else (k ++ ": " ++ headersGet hs k ++ "\n").toList)
      ++ keptLinesSpec hs ks

/-- Emitted header block as the amended claim words it: the `\n`-terminated
concatenation of exactly those scanned lines that are empty, contain a `:`,
or start with SP/HTAB. -/
def keptHeaderLinesSpec (lines : List (List Char)) : List Char :=
  (lines.filter (fun l => !isNoise l)).foldr (fun l acc => l ++ '\n' :: acc) []

/-! ## Claim theorems -/

/-- C2: the claim says `PGPTransformer.NewEncryptor` encrypts to the
configured encryption entity, signs with the configured signing entity, and
fails with `NoEncryptionKey` exactly when the encryption entity is missing.
The positional call swaps the two entities: with the encryption entity
present and the signing entity nil, construction fails with the missing-key
error; with the encryption entity missing and the signing entity present, it
succeeds and the OpenPGP stream's recipient is the signing entity; with both
present, it encrypts to the signing entity and signs with the encryption
entity. -/
theorem c2_newEncryptor_swaps_keys :
    transformerNewEncryptor ⟨some 1, none, []⟩ = .error "missing encryption key" ∧
    transformerNewEncryptor ⟨none, some 2, []⟩ = .ok ⟨[2], none, []⟩ ∧
    transformerNewEncryptor ⟨some 1, some 2, []⟩ = .ok ⟨[2], some 1, []⟩ := by
  decide

/-- C3: the claim says the Decryptor is the identity on messages lacking
`X-Lemoncrypt`.  For the non-lemoncrypt message "A: b\n\nbody" (written in
full into the Decryptor), `GetReader` returns the drained `d.buf`, whose
remaining content is empty rather than the original bytes: the header block
and the body bytes buffered by the `bufio.Reader` are lost. -/
theorem c3_passthrough_not_identity :
    decryptorGetReader 4096 "A: b\n\nbody".toList = .ok [] ∧
    ([] : List Char) ≠ "A: b\n\nbody".toList := by
  decide

/-- C9: the claim says `expandTilde` is total on strings.  The code evaluates
`path[0:2]` unconditionally, which panics for the empty path and any
one-character path; `validateConfig` reaches the panic with a valid
configuration whose signing key path is empty. -/
theorem c9_expandTilde_panics_on_short_path :
    expandTilde none [] = none ∧
    expandTilde none ['a'] = none ∧
    validateConfig none ⟨[("INBOX", "")], "/k".toList, [], []⟩ = .panicked := by
  decide

/-- C10: the claim says `Verifier.Write` never indexes out of range for a
conforming reference reader.  With reference content "abc" delivered as a
1-byte read followed by a full-buffer read (both conforming), writing "ab"
reaches `wBuf[0:2]` while only one written byte remains: the slice bound
exceeds the remaining written bytes. -/
theorem c10_write_slice_out_of_range :
    verifierWrite ⟨"abc".toList, [1], 3, 0⟩ "ab".toList = .panicked := by
  decide

/-- C1: an envelope is appended to the target store only if decrypting it and
reading it fully yields exactly the original message bytes; when the decrypted
bytes differ from the original, `encryptMail` returns the round-trip error and
never appends. -/
theorem c1_roundtrip_gates_append
    (enc dec : List Char → Except String (List Char)) (m : List Char) :
    (∀ e, (encryptMail enc dec m).appended = some e → dec e = .ok m) ∧
    (∀ e d, enc m = .ok e → dec e = .ok d → d ≠ m →
      (encryptMail enc dec m).appended = none ∧
      (encryptMail enc dec m).err = some "round-trip verification failed") := by
  constructor
  · intro e he
    cases henc : enc m with
    | error s => simp [encryptMail, henc] at he
    | ok eb =>
      cases hdec : dec eb with
      | error s => simp [encryptMail, henc, hdec] at he
      | ok db =>
        by_cases hd : db = m
        · have heb : eb = e := by simpa [encryptMail, henc, hdec, hd] using he
          rw [← heb, hdec, hd]
        · simp [encryptMail, henc, hdec, hd] at he
  · intro e d henc hdec hne
    simp [encryptMail, henc, hdec, hne]

/-- C1 witness: at `m = "ab"` with an encryptor that prepends a marker byte
and a decryptor that drops it, the envelope is appended and decrypts back to
`m`; with a decryptor returning different bytes, the pipeline errors and
appends nothing. -/
theorem c1_roundtrip_gates_append_witness :
    ((fun e : List Char => (Except.ok (e.drop 1) : Except String (List Char)))
        ('E' :: "ab".toList) = Except.ok "ab".toList) ∧
    ((encryptMail (fun m => Except.ok ('E' :: m))
        (fun _ => Except.ok "zz".toList) "ab".toList).appended = none ∧
      (encryptMail (fun m => Except.ok ('E' :: m))
        (fun _ => Except.ok "zz".toList) "ab".toList).err =
          some "round-trip verification failed") :=
  ⟨(c1_roundtrip_gates_append (fun m => Except.ok ('E' :: m))
      (fun e => Except.ok (e.drop 1)) "ab".toList).1 ('E' :: "ab".toList) (by decide),
   (c1_roundtrip_gates_append (fun m => Except.ok ('E' :: m))
      (fun _ => Except.ok "zz".toList) "ab".toList).2 ('E' :: "ab".toList)
      "zz".toList (by decide) (by decide) (by decide)⟩

/-- C4 counterexample: for the Message-Id "ab" (non-empty, no leading `<`),
the claim predicts `Message-Id: ablemoncrypt.` but the code emits
`Message-Id: ablemoncrypt.b` — the prefix is followed by the original id
minus its first character, not appended alone. -/
theorem c4_msgid_cex :
    writeMessageID "ab".toList = "Message-Id: ablemoncrypt.b\n".toList ∧
    "Message-Id: ablemoncrypt.b\n".toList ≠ "Message-Id: ablemoncrypt.\n".toList := by
  decide

/-- C4 amended: the Message-Id line is `Message-Id: ` followed by the
rewritten id and `\n`, where an id starting with `<` gets `lemoncrypt.`
inserted after the `<`, a non-empty id without a leading `<` becomes the
original id followed by `lemoncrypt.` and the original id minus its first
character, and an absent id stays empty. -/
theorem c4_msgid_rewrite_amended (msgid : List Char) :
    writeMessageID msgid = "Message-Id: ".toList ++ rewriteMsgIDSpec msgid ++ ['\n'] := by
  cases msgid with
  | nil => rfl
  | cons c rest =>
    by_cases hc : c = '<'
    · subst hc
      cases rest with
      | nil => simp [writeMessageID, rewriteMsgIDSpec]
      | cons d ds =>
        simp [writeMessageID, rewriteMsgIDSpec]
    · simp [writeMessageID, rewriteMsgIDSpec, hc]

/-- Helper: the kept-header loop appends exactly the spec-side lines to the
buffer it is given. -/
theorem writeKeptLoop_eq_spec (hs : List (String × String)) (ks : List String) :
    ∀ buf, writeKeptLoop hs ks buf = buf ++ keptLinesSpec hs ks := by
  induction ks with
  | nil => intro buf; simp [writeKeptLoop, keptLinesSpec]
  | cons k ks ih =>
    intro buf
    by_cases hv : headersGet hs k = ""
    · simp [writeKeptLoop, keptLinesSpec, hv, ih]
    · simp [writeKeptLoop, keptLinesSpec, hv, ih, List.append_assoc]

/-- C5 counterexample: with source headers containing only `Subject: Hi` and
keep-list `[Subject]`, the code emits the kept header before the
`X-Lemoncrypt` line, not after it as the claim states. -/
theorem c5_header_order_cex :
    writePlainHeaders [("Subject", "Hi")] ["Subject"] =
      .ok "Message-Id: \nSubject: Hi\nX-Lemoncrypt: v0.1\n".toList ∧
    "Message-Id: \nSubject: Hi\nX-Lemoncrypt: v0.1\n".toList ≠
      "Message-Id: \nX-Lemoncrypt: v0.1\nSubject: Hi\n".toList := by
  decide

/-- C5 amended: for every successfully encrypted message the envelope's
top-level output is, in this fixed order: the Message-Id line, one line per
preserved keep-list header (in keep-list order, empty values skipped), the
`X-Lemoncrypt: v0.1` line, and finally the MIME framing headers and body. -/
theorem c5_header_order_amended (hs : List (String × String)) (keep : List String)
    (boundary armored : String)
    (h : "multipart/encrypted".isPrefixOf (headersGet hs "Content-Type") = false) :
    envelopeBytes hs keep boundary armored =
      .ok (writeMessageID (headersGet hs "Message-Id").toList ++
        keptLinesSpec hs keep ++ lemoncryptHeaderLine ++
        writeMIMEStructure boundary armored) := by
  simp [envelopeBytes, writePlainHeaders, h, writeKeptLoop_eq_spec, List.append_assoc]

/-- C5 witness: the amended order at a concrete header set, keep-list,
boundary and armored payload. -/
theorem c5_header_order_amended_witness :
    envelopeBytes [("Subject", "Hi")] ["Subject"] "b0" "ARMOR" =
      .ok (writeMessageID (headersGet [("Subject", "Hi")] "Message-Id").toList ++
        keptLinesSpec [("Subject", "Hi")] ["Subject"] ++ lemoncryptHeaderLine ++
        writeMIMEStructure "b0" "ARMOR") :=
  c5_header_order_amended [("Subject", "Hi")] ["Subject"] "b0" "ARMOR" (by decide)

/-- C6 counterexample: for reference `"foo"` (a `bytes.Buffer`, which serves
the whole request in one read) and write `"fo1"`, `Write` fails with the
mismatch error but returns 3 — the size of the read in which the mismatch was
detected — not 2, the count of bytes matched before the mismatch; the
matched-byte counter stays 0. -/
theorem c6_mismatch_count_cex :
    verifierWrite ⟨"foo".toList, [], 3, 0⟩ "fo1".toList =
      .fail 3 "bytes mismatch" ⟨[], [], 3, 0⟩ ∧
    (3 : Nat) ≠ 2 := by
  decide

/-- Helper: whenever the `Write` loop returns the mismatch error under any
read-chunk schedule, the result is characterised by the matched prefix `k`:
the first `k` reference bytes equal the first `k` written bytes, the counter
advanced by exactly `k`, the reference advanced by `k` plus the failing read's
size `n`, and the failing read's `n` bytes differ from the written bytes that
remained at that point. -/
theorem vLoop_fail_spec (askLen expected : Nat) (chunks : List Nat) :
    ∀ (wBuf content : List Char) (counter n : Nat) (v' : Verifier),
      vLoop askLen expected chunks wBuf content counter =
        .fail n "bytes mismatch" v' →
      ∃ k, content.take k = wBuf.take k ∧
        v'.byteCounter = counter + k ∧
        v'.content = content.drop (k + n) ∧
        (wBuf.drop k).take n ≠ (content.drop k).take n := by
  induction chunks with
  | nil =>
    intro wBuf content counter n v' h
    unfold vLoop vLoopNoChunks at h
    by_cases hw : wBuf.isEmpty
    · rw [if_pos hw] at h
      simp at h
    · rw [if_neg hw] at h
      by_cases hc : content.isEmpty
      · rw [if_pos hc] at h
        injection h with h1 h2 h3
        exact absurd h2 (by decide)
      · rw [if_neg hc] at h
        by_cases hlt : wBuf.length < min askLen content.length
        · rw [if_pos hlt] at h
          simp at h
        · rw [if_neg hlt] at h
          by_cases hne : wBuf.take (min askLen content.length) ≠
              content.take (min askLen content.length)
          · rw [if_pos hne] at h
            injection h with h1 h2 h3
            subst h1
            subst h3
            refine ⟨0, rfl, by simp, by simp, by simpa using hne⟩
          · rw [if_neg hne] at h
            by_cases hl : min askLen content.length = wBuf.length
            · rw [if_pos hl] at h
              simp at h
            · rw [if_neg hl] at h
              injection h with h1 h2 h3
              exact absurd h2 (by decide)
  | cons c cs ih =>
    intro wBuf content counter n v' h
    unfold vLoop at h
    by_cases hw : wBuf.isEmpty
    · rw [if_pos hw] at h
      simp at h
    · rw [if_neg hw] at h
      by_cases hc : content.isEmpty
      · rw [if_pos hc] at h
        injection h with h1 h2 h3
        exact absurd h2 (by decide)
      · rw [if_neg hc] at h
        by_cases hlt : wBuf.length < min c (min askLen content.length)
        · rw [if_pos hlt] at h
          simp at h
        · rw [if_neg hlt] at h
          by_cases hne : wBuf.take (min c (min askLen content.length)) ≠
              content.take (min c (min askLen content.length))
          · rw [if_pos hne] at h
            injection h with h1 h2 h3
            subst h1
            subst h3
            refine ⟨0, rfl, by simp, by simp, by simpa using hne⟩
          · rw [if_neg hne] at h
            push_neg at hne
            obtain ⟨k', A, B, C, D⟩ := ih _ _ _ _ _ h
            refine ⟨min c (min askLen content.length) + k', ?_, ?_, ?_, ?_⟩
            · rw [List.take_add, List.take_add, hne, A]
            · rw [B]
              omega
            · rw [C, List.drop_drop]
              congr 1
              omega
            · rw [List.drop_drop, List.drop_drop] at D
              exact D

/-- C6 amended: whenever `Write` fails with the `ByteMismatch` error — under
any conforming read schedule, with the mismatch detected in any read segment —
its integer return value is the number of bytes obtained by the `Read` call in
which the mismatch was detected: there is a matched prefix of `k` bytes on
which the written and reference bytes agree, the byte counter advanced by
exactly those `k`, the reference advanced by `k` plus the returned count, and
the returned count's worth of freshly read bytes differs from the written
bytes remaining at that point.  It is not the count of bytes consumed before
the mismatch: for reference `"foo"` and write `"fo1"` a whole-buffer reader
makes `Write` return 3, a one-byte-per-read reader makes it return 1 — in
neither case 2. -/
theorem c6_mismatch_count_amended (v : Verifier) (W : List Char) (n : Nat)
    (v' : Verifier) (h : verifierWrite v W = .fail n "bytes mismatch" v') :
    ∃ k, v.content.take k = W.take k ∧
      v'.byteCounter = v.byteCounter + k ∧
      v'.content = v.content.drop (k + n) ∧
      (W.drop k).take n ≠ (v.content.drop k).take n :=
  vLoop_fail_spec W.length v.expectedLength v.chunks W v.content
    v.byteCounter n v' h

/-- C6 witness: reference `"foo"` delivered one byte per read, write `"fo1"`:
`Write` fails returning 1 (the failing read's size) with the counter at the
matched prefix 2. -/
theorem c6_mismatch_count_amended_witness :
    ∃ k, "foo".toList.take k = "fo1".toList.take k ∧
      (2 : Nat) = 0 + k ∧
      ([] : List Char) = "foo".toList.drop (k + 1) ∧
      ("fo1".toList.drop k).take 1 ≠ ("foo".toList.drop k).take 1 :=
  c6_mismatch_count_amended ⟨"foo".toList, [1, 1, 1], 3, 0⟩ "fo1".toList 1
    ⟨[], [], 3, 2⟩ (by decide)

/-- Helper: the header-emission loop appends exactly the kept lines to the
buffer it is given. -/
theorem storeLoop_eq_spec (lines : List (List Char)) :
    ∀ buf, storeLoop lines buf = buf ++ keptHeaderLinesSpec lines := by
  induction lines with
  | nil => intro buf; simp [storeLoop, keptHeaderLinesSpec]
  | cons line rest ih =>
    intro buf
    by_cases hn : isNoise line = true
    · simp [storeLoop, keptHeaderLinesSpec, hn, ih, List.filter_cons]
    · have hn' : isNoise line = false := by simpa using hn
      simp [storeLoop, keptHeaderLinesSpec, hn', ih, List.filter_cons,
        List.append_assoc]

/-- C8 counterexample: in the input below the first line is dropped noise,
yet its folded continuation line `\tcont` is kept by the code (it starts with
HTAB), contradicting the claim that such a continuation is dropped and that a
kept line must itself contain `:` or continue a kept line. -/
theorem c8_folded_after_dropped_cex :
    headerBufferEmit "x y\n\tcont\nFoo: Bar\n\nrest".toList =
      some "\tcont\nFoo: Bar\n\n".toList ∧
    some "\tcont\nFoo: Bar\n\n".toList ≠ some "Foo: Bar\n\n".toList := by
  decide

/-- C8 amended: the emitted header block consists of exactly those scanned
lines that are empty, contain a `:`, or start with SP/HTAB — each kept line
`\n`-terminated; a folded continuation line is kept even when the line before
it was dropped, because the keep test looks at each line in isolation. -/
theorem c8_keep_rule_amended (input : List Char) :
    storeHeaderBlock input = keptHeaderLinesSpec (scanLines input) := by
  simpa using storeLoop_eq_spec (scanLines input) []

/-- Helper: a `Write` call that returns without error consumed exactly the
written bytes from the reference reader — the consumed reference segment
equals the written buffer, the reference advances by its length, the counter
increases by its length, and the expected length is unchanged. -/
theorem vLoop_ok_spec (askLen expected : Nat) (chunks : List Nat) :
    ∀ (wBuf content : List Char) (counter n : Nat) (v' : Verifier),
      vLoop askLen expected chunks wBuf content counter = .ok n v' →
      content.take wBuf.length = wBuf ∧
      v'.content = content.drop wBuf.length ∧
      v'.byteCounter = counter + wBuf.length ∧
      v'.expectedLength = expected := by
  induction chunks with
  | nil =>
    intro wBuf content counter n v' h
    unfold vLoop vLoopNoChunks at h
    by_cases hw : wBuf.isEmpty
    · rw [if_pos hw] at h
      have hwl : wBuf = [] := List.isEmpty_iff.mp hw
      cases h
      subst hwl
      simp
    · rw [if_neg hw] at h
      by_cases hc : content.isEmpty
      · rw [if_pos hc] at h
        simp at h
      · rw [if_neg hc] at h
        by_cases hlt : wBuf.length < min askLen content.length
        · rw [if_pos hlt] at h
          simp at h
        · rw [if_neg hlt] at h
          by_cases hne : wBuf.take (min askLen content.length) ≠
              content.take (min askLen content.length)
          · rw [if_pos hne] at h
            simp at h
          · rw [if_neg hne] at h
            push_neg at hne
            by_cases hl : min askLen content.length = wBuf.length
            · rw [if_pos hl] at h
              cases h
              refine ⟨?_, by simp [hl], by simp [hl], rfl⟩
              calc content.take wBuf.length
                  = content.take (min askLen content.length) := by rw [hl]
                _ = wBuf.take (min askLen content.length) := hne.symm
                _ = wBuf.take wBuf.length := by rw [hl]
                _ = wBuf := List.take_length wBuf
            · rw [if_neg hl] at h
              simp at h
  | cons c cs ih =>
    intro wBuf content counter n v' h
    unfold vLoop at h
    by_cases hw : wBuf.isEmpty
    · rw [if_pos hw] at h
      have hwl : wBuf = [] := List.isEmpty_iff.mp hw
      cases h
      subst hwl
      simp
    · rw [if_neg hw] at h
      by_cases hc : content.isEmpty
      · rw [if_pos hc] at h
        simp at h
      · rw [if_neg hc] at h
        by_cases hlt : wBuf.length < min c (min askLen content.length)
        · rw [if_pos hlt] at h
          simp at h
        · rw [if_neg hlt] at h
          by_cases hne : wBuf.take (min c (min askLen content.length)) ≠
              content.take (min c (min askLen content.length))
          · rw [if_pos hne] at h
            simp at h
          · rw [if_neg hne] at h
            push_neg at hne
            have hle : min c (min askLen content.length) ≤ wBuf.length :=
              Nat.le_of_not_lt hlt
            obtain ⟨A, B, C, D⟩ := ih _ _ _ _ _ h
            refine ⟨?_, ?_, ?_, D⟩
            · calc content.take wBuf.length
                  = content.take (min c (min askLen content.length) +
                      (wBuf.length - min c (min askLen content.length))) := by
                    congr 1
                    omega
                _ = content.take (min c (min askLen content.length)) ++
                    (content.drop (min c (min askLen content.length))).take
                      (wBuf.length - min c (min askLen content.length)) :=
                    List.take_add ..
                _ = wBuf.take (min c (min askLen content.length)) ++
                    (content.drop (min c (min askLen content.length))).take
                      ((wBuf.drop (min c (min askLen content.length))).length) := by
                    rw [hne, List.length_drop]
                _ = wBuf.take (min c (min askLen content.length)) ++
                    wBuf.drop (min c (min askLen content.length)) := by rw [A]
                _ = wBuf := List.take_append_drop ..
            · rw [B, List.length_drop, List.drop_drop]
              congr 1
              omega
            · rw [C, List.length_drop]
              omega

/-- Helper: a run of `Write` calls that all return without error consumed
exactly the concatenation of the written buffers from the reference. -/
theorem verifierRun_ok_spec (ws : List (List Char)) :
    ∀ (v v' : Verifier), verifierRun v ws = some v' →
      v.content.take ws.flatten.length = ws.flatten ∧
      v'.content = v.content.drop ws.flatten.length ∧
      v'.byteCounter = v.byteCounter + ws.flatten.length ∧
      v'.expectedLength = v.expectedLength := by
  induction ws with
  | nil =>
    intro v v' h
    obtain rfl : v = v' := by simpa [verifierRun] using h
    simp
  | cons w ws ih =>
    intro v v' h
    cases hw : verifierWrite v w with
    | ok nn v1 =>
      simp only [verifierRun, hw] at h
      obtain ⟨A1, B1, C1, D1⟩ :=
        vLoop_ok_spec w.length v.expectedLength v.chunks w v.content
          v.byteCounter nn v1 (by simpa [verifierWrite] using hw)
      obtain ⟨A2, B2, C2, D2⟩ := ih v1 v' h
      have e2 : (v.content.drop w.length).take ws.flatten.length = ws.flatten := by
        rw [← B1]
        exact A2
      refine ⟨?_, ?_, ?_, ?_⟩
      · rw [List.flatten_cons, List.length_append, List.take_add, A1, e2]
      · rw [B2, B1, List.flatten_cons, List.length_append, List.drop_drop]
      · rw [C2, C1, List.flatten_cons, List.length_append]
        omega
      · rw [D2, D1]
    | fail nn msg v1 => simp [verifierRun, hw] at h
    | panicked => simp [verifierRun, hw] at h

/-- C7: for a Verifier over reference `R` with a fresh counter, after a run of
`Write` calls that all completed without error, `Equal` returns true if and
only if the concatenation of the written byte sequences equals the entire
reference content and its length equals the configured expected length. -/
theorem c7_equal_iff (R : List Char) (chunks : List Nat) (expected : Nat)
    (ws : List (List Char)) (v' : Verifier)
    (h : verifierRun ⟨R, chunks, expected, 0⟩ ws = some v') :
    verifierEqual v' = true ↔ (ws.flatten = R ∧ ws.flatten.length = expected) := by
  obtain ⟨A, B, C, D⟩ := verifierRun_ok_spec ws ⟨R, chunks, expected, 0⟩ v' h
  dsimp only at A B C D
  constructor
  · intro he
    obtain ⟨h1, h2⟩ : v'.content = [] ∧ v'.byteCounter = v'.expectedLength := by
      simpa [verifierEqual, List.isEmpty_iff] using he
    have hlen : R.length ≤ ws.flatten.length := by
      rw [B] at h1
      exact List.drop_eq_nil_iff.mp h1
    constructor
    · rw [← A]
      exact List.take_of_length_le hlen
    · rw [C, D] at h2
      omega
  · rintro ⟨h1, h2⟩
    have hlen : R.length = ws.flatten.length := by rw [h1]
    have h1' : v'.content = [] := by
      rw [B, List.drop_eq_nil_iff]
      omega
    have h2' : v'.byteCounter = v'.expectedLength := by
      rw [C, D]
      omega
    simp [verifierEqual, List.isEmpty_iff, h1', h2']

/-- C7 witness: reference `"foo"`, one write of `"foo"`, expected length 3 —
the single write succeeds and `Equal` returns true. -/
theorem c7_equal_iff_witness : verifierEqual ⟨[], [], 3, 3⟩ = true :=
  (c7_equal_iff "foo".toList [] 3 ["foo".toList] ⟨[], [], 3, 3⟩ (by decide)).mpr
    (by decide)

/-- Test vectors of the Go test suite and straightforward evaluations,
re-checked on the embedding: the HeaderBuffer scenarios, the Verifier
short-read and multi-write cases, and the ordinary Message-Id rewrite. -/
theorem goTestVectors_check :
    headerBufferEmit "Foo: Bar\r\n\r\n".toList = some "Foo: Bar\n\n".toList ∧
    headerBufferEmit "Received foo bar no colon\nFoo: Bar\nBaz: y\n\nTrailing".toList =
      some "Foo: Bar\nBaz: y\n\n".toList ∧
    headerBufferEmit "Foo: Bar,\n\tBaz\n\nTrailing".toList =
      some "Foo: Bar,\n\tBaz\n\n".toList ∧
    verifierWrite ⟨"foo".toList, [1, 1, 1], 3, 0⟩ "foo".toList =
      .ok 3 ⟨[], [], 3, 3⟩ ∧
    verifierRun ⟨"foobarbaz".toList, [], 9, 0⟩ ["foo".toList, "barbaz".toList] =
      some ⟨[], [], 9, 9⟩ ∧
    writeMessageID "<x@y>".toList = "Message-Id: <lemoncrypt.x@y>\n".toList := by
  decide
